import Mathlib

/-!
Verification of the asset acquisition, caching and update engine of
`src/js/assets.js` (uBlock Origin fork).  The JavaScript module is shallowly
embedded below: pure helpers become Lean functions, the stateful cache is
explicit state passing over an `AssetsState` record, asynchronous fetches are
modelled by total oracle functions `String → FetchResult`, and the recursive
list assembler is given fuel and returns an `Option`.  Times are `Nat`
(epoch milliseconds); `Expires`-style durations are `Rat` (days, fractional).
JavaScript `undefined` on a field is modelled by `Option`.
-/

namespace UBOAssets

/-- Result record produced by `assets.fetch` / `assets.fetchText` /
`assets.fetchFilterList` (fields that a given producer leaves `undefined`
are `none`).  Mirrors the detail objects built in `assets.js`. -/
structure FetchResult where
  url : String := ""
  content : String := ""
  error : Option String := none
  statusCode : Option Nat := none
  statusText : Option String := none
  resourceTime : Option Nat := none
  deriving Repr, DecidableEq

/-- `String.prototype.trim`: strip whitespace from both ends (built-in string
methods are re-expressed on character lists so that proofs can evaluate
them). -/
def jsTrim (s : String) : String :=
  String.mk ((s.data.dropWhile Char.isWhitespace).reverse.dropWhile Char.isWhitespace).reverse

/-- `String.prototype.startsWith`. -/
def strStartsWith (s p : String) : Bool :=
  decide (s.data.take p.data.length = p.data)

/-- `String.prototype.endsWith`. -/
def strEndsWith (s p : String) : Bool :=
  decide (s.data.reverse.take p.data.length = p.data.reverse)

/-- `const reIsExternalPath = /^(?:[a-z-]+):\/\//` — at least one char of
`[a-z-]` followed by `://`. -/
def isExternalPath (url : String) : Bool :=
  let cs := url.data
  let scheme := cs.takeWhile (fun c => c.isLower || c = '-')
  decide (scheme ≠ []) && decide ((cs.drop scheme.length).take 3 = [':', '/', '/'])

/-- Test of `reIsUserAsset` (the regular expression `^user-`). -/
def reIsUserAssetTest (s : String) : Bool :=
  strStartsWith s "user-"

/-- `const stringIsNotEmpty = s => typeof s === 'string' && s !== ''`
(contents are always strings in the model). -/
def stringIsNotEmpty (s : String) : Bool :=
  decide (s ≠ "")

/-! ### parseExpires (assets.js lines 50-58) -/

/-- Digit-string to `Nat` (`parseInt(matches[1], 10)` on a `\d+` capture). -/
def digitsToNat (ds : List Char) : Nat :=
  ds.foldl (fun acc c => acc * 10 + (c.toNat - '0'.toNat)) 0

/-- First match of `/(\d+)\s*([dh])?/i` in a string: the regex engine scans for
the first position where `\d+` can start, takes the maximal digit run, skips
whitespace, then optionally captures one `[dhDH]` character.  Returns
`(matches[1] as Nat, matches[2])`, or `none` when there is no digit. -/
def parseExpiresMatch (s : String) : Option (Nat × Option Char) :=
  let cs := s.data.dropWhile (fun c => !c.isDigit)
  match cs with
  | [] => none
  | _ =>
    let digits := cs.takeWhile Char.isDigit
    let rest := (cs.drop digits.length).dropWhile Char.isWhitespace
    let unit : Option Char :=
      match rest with
      | c :: _ => if c = 'd' || c = 'h' || c = 'D' || c = 'H' then some c else none
      | [] => none
    some (digitsToNat digits, unit)

/-- `parseExpires` (assets.js lines 50-58): on no match return 0; when the
captured unit is exactly the lowercase `'h'`, convert hours to days via
`Math.ceil(updateAfter / 6) / 4`; otherwise return the number unchanged.
`Math.ceil(n / 6)` on a natural `n` is `(n + 5) / 6` in `Nat`. -/
def parseExpires (s : String) : Rat :=
  match parseExpiresMatch s with
  | none => 0
  | some (updateAfter, unit) =>
    if unit = some 'h' then
      (((updateAfter + 5) / 6 : Nat) : Rat) / 4
    else
      (updateAfter : Rat)

/-! ### extractMetadataFromList post-processing (assets.js lines 76-86)

The raw field extraction yields, per field, either `undefined` or a non-empty
trimmed string; that presence is an `Option String` here.  The known-field
normalization applied afterwards is embedded below. -/

/-- `if ( out.expires ) { out.expires = Math.max(parseExpires(out.expires), 0.5); }` -/
def processExpiresField (v : Option String) : Option Rat :=
  match v with
  | none => none
  | some s => some (max (parseExpires s) (1 / 2 : Rat))

/-- `if ( out.diffExpires ) { out.diffExpires = Math.max(parseExpires(out.diffExpires), 0.25); }` -/
def processDiffExpiresField (v : Option String) : Option Rat :=
  match v with
  | none => none
  | some s => some (max (parseExpires s) (1 / 4 : Rat))

/-! ### resourceIsStale (assets.js lines 126-136) -/

/-- `resourceIsStale(networkDetails, cacheDetails)` over the two
`resourceTime` fields (`none` models a missing / non-number field). -/
def resourceIsStale (networkTime cacheTime : Option Nat) : Bool :=
  match networkTime with
  | none => false
  | some nt =>
    if nt = 0 then false
    else
      match cacheTime with
      | none => false
      | some ct =>
        if ct = 0 then false
        else decide (nt < ct)

/-! ### fetchText (assets.js lines 287-342) -/

/-- The cache-bypass token of `assets.fetchText`:
`Math.floor(Date.now() / 1000) % 86413` when the
`updateAssetBypassBrowserCache` hidden setting is on, else
`Math.floor(Date.now() / 3600000) % 13`. -/
def cacheBypassToken (bypassBrowserCache : Bool) (now : Nat) : Nat :=
  if bypassBrowserCache then (now / 1000) % 86413 else (now / 3600000) % 13

/-- URL rewriting performed by `assets.fetchText` before fetching:
non-external URLs go through `vAPI.getURL` (modelled by the `getURL`
parameter); external URLs receive the cache-busting `_=<token>` query
parameter unless `remoteServerFriendly` is set. -/
def fetchTextActualURL (getURL : String → String) (bypassBrowserCache remoteServerFriendly : Bool)
    (now : Nat) (url : String) : String :=
  let isExternal := isExternalPath url
  let actualUrl := if isExternal then url else getURL url
  if isExternal && !remoteServerFriendly then
    let queryValue := "_=" ++ toString (cacheBypassToken bypassBrowserCache now)
    (if actualUrl.data.contains '?' then actualUrl ++ "&" else actualUrl ++ "?") ++ queryValue
  else
    actualUrl

/-- Post-processing of a fetch result inside `assets.fetchText`: an empty-ish
content is normalized to `''`, and a trimmed body that starts with `<` and
ends with `>` is discarded as an HTML error page.  The caller's URL is echoed
back afterwards (done by the caller of this function in the model). -/
def fetchTextPostprocess (details : FetchResult) : FetchResult :=
  let details :=
    if stringIsNotEmpty details.content = false then { details with content := "" } else details
  let text := jsTrim details.content
  if strStartsWith text "<" && strEndsWith text ">" then
    { details with content := "", error := some "assets.fetchText(): Not a text file" }
  else
    details

/-! ### Association-list helpers (JavaScript plain objects used as maps) -/

/-- Lookup in an association list (property read on a JS object-as-map). -/
def alist.lookup {α : Type} (m : List (String × α)) (k : String) : Option α :=
  match m with
  | [] => none
  | (k', v) :: rest => if k' = k then some v else alist.lookup rest k

/-- Insert / overwrite in an association list (property write). -/
def alist.insert {α : Type} (m : List (String × α)) (k : String) (v : α) :
    List (String × α) :=
  match m with
  | [] => [(k, v)]
  | (k', v') :: rest =>
    if k' = k then (k, v) :: rest else (k', v') :: alist.insert rest k v

/-- Delete a key from an association list (`delete obj[k]`). -/
def alist.erase {α : Type} (m : List (String × α)) (k : String) : List (String × α) :=
  m.filter (fun kv => kv.1 ≠ k)

/-! ### Cache registry + store (assets.js lines 620-843) -/

/-- One value of the asset cache registry (`assetCacheRegistry[assetKey]`).
Fields which JavaScript may leave `undefined` (or delete) are `Option`. -/
structure CacheEntry where
  writeTime : Option Nat := none
  readTime : Option Nat := none
  resourceTime : Option Nat := none
  remoteURL : Option String := none
  lastModified : Option Nat := none
  expires : Option Rat := none
  diffExpires : Option Rat := none
  diffName : Option String := none
  diffPath : Option String := none
  deriving Repr, DecidableEq

/-- The mutable cache-side state of the module: the in-memory
`assetCacheRegistry` object and the `cacheStorage` key/value store holding
the `cache/<assetKey>` content blobs (blobs are strings; a binary `Blob` is
read back as `''` by the code, so it is not modelled separately). -/
structure AssetsState where
  cacheRegistry : List (String × CacheEntry) := []
  storage : List (String × String) := []
  deriving Repr, DecidableEq

/-- Result record of `assetCacheRead` (and of user-asset reads / `assets.get`). -/
structure ReadResult where
  assetKey : String
  content : String
  error : Option String := none
  sourceURL : Option String := none
  deriving Repr, DecidableEq

/-- `assetCacheRead(assetKey, updateReadTime)` (assets.js lines 678-719).
Returns the details object, the state after the call, and whether a lazy
save of the cache registry was scheduled (`saveAssetCacheRegistry(true)`).
When both the content blob and the registry entry exist, `entry.readTime`
is unconditionally set to `Date.now()`; `updateReadTime` only decides the
debounced save. -/
def assetCacheRead (st : AssetsState) (now : Nat) (assetKey : String)
    (updateReadTime : Bool := false) : ReadResult × AssetsState × Bool :=
  let internalKey := "cache/" ++ assetKey
  let reportBack := fun (content : String) =>
    if content = "" then
      ReadResult.mk assetKey content (some "ENOTFOUND") none
    else
      ReadResult.mk assetKey content none none
  match alist.lookup st.storage internalKey with
  | none => (reportBack "", st, false)
  | some blob =>
    match alist.lookup st.cacheRegistry assetKey with
    | none => (reportBack "", st, false)
    | some entry =>
      let entry := { entry with readTime := some now }
      let st := { st with cacheRegistry := alist.insert st.cacheRegistry assetKey entry }
      (reportBack blob, st, updateReadTime)

/-- `assetCacheRemove(pattern)` for a string pattern (exact key match):
deletes the registry entry and its `cache/<key>` blob. -/
def assetCacheRemoveKey (st : AssetsState) (assetKey : String) : AssetsState :=
  { cacheRegistry := alist.erase st.cacheRegistry assetKey,
    storage := alist.erase st.storage ("cache/" ++ assetKey) }

/-- `assetCacheWrite(assetKey, details)` (assets.js lines 721-757).  Empty
content delegates to `assetCacheRemove`; otherwise the entry's `writeTime`
and `readTime` become `now`, `resourceTime` becomes
`options.resourceTime || 0`, `remoteURL` is set when a URL string was
supplied, and the content blob is persisted.  Returns the new state and the
`{ assetKey, content }` result. -/
def assetCacheWrite (st : AssetsState) (now : Nat) (assetKey content : String)
    (url : Option String := none) (resourceTime : Nat := 0) :
    AssetsState × (String × String) :=
  if content = "" then
    (assetCacheRemoveKey st assetKey, (assetKey, content))
  else
    let entry := (alist.lookup st.cacheRegistry assetKey).getD {}
    let entry := { entry with
      writeTime := some now, readTime := some now,
      resourceTime := some resourceTime,
      remoteURL := match url with | some u => some u | none => entry.remoteURL }
    ({ cacheRegistry := alist.insert st.cacheRegistry assetKey entry,
       storage := alist.insert st.storage ("cache/" ++ assetKey) content },
     (assetKey, content))

/-- The five fields extracted by `extractMetadataFromList(content, ['Last-Modified',
'Expires', 'Diff-Name', 'Diff-Path', 'Diff-Expires'])` after known-field
normalization (`none` models a field left `undefined`). -/
structure MetadataPatch where
  lastModified : Option Nat := none
  expires : Option Rat := none
  diffName : Option String := none
  diffPath : Option String := none
  diffExpires : Option Rat := none
  deriving Repr, DecidableEq

/-- `assetCacheSetDetails(assetKey, metadata)` for a metadata patch: for each
of the five keys, an `undefined` value deletes the entry's field and a
present value overwrites it (the patch always carries all five keys).  A
missing registry entry makes the call a no-op. -/
def assetCacheSetDetailsMeta (st : AssetsState) (assetKey : String)
    (md : MetadataPatch) : AssetsState :=
  match alist.lookup st.cacheRegistry assetKey with
  | none => st
  | some entry =>
    let entry := { entry with
      lastModified := md.lastModified, expires := md.expires,
      diffName := md.diffName, diffPath := md.diffPath,
      diffExpires := md.diffExpires }
    { st with cacheRegistry := alist.insert st.cacheRegistry assetKey entry }

/-- `assetCacheSetDetails(assetKey, { writeTime })` (the call made by
`getRemote` on the all-stale path): overwrite (or, on `undefined`, delete)
the entry's `writeTime`.  No-op when the entry is missing. -/
def assetCacheSetDetailsWriteTime (st : AssetsState) (assetKey : String)
    (writeTime : Option Nat) : AssetsState :=
  match alist.lookup st.cacheRegistry assetKey with
  | none => st
  | some entry =>
    { st with cacheRegistry :=
        alist.insert st.cacheRegistry assetKey { entry with writeTime := writeTime } }

/-! ### Source registry (assets.js lines 466-618) -/

/-- One value of the asset source registry.  `contentURL` keeps the raw
JavaScript shape (a string, an array, or absent) because `assets.get` and
`getRemote` branch on `typeof`. -/
structure AssetSourceEntry where
  contentURL : Option (String ⊕ List String) := none
  cdnURLs : Option (List String) := none
  content : Option String := none
  updateAfter : Option Rat := none
  hasLocalURL : Bool := false
  hasRemoteURL : Bool := false
  submitter : Bool := false
  submitTime : Option Nat := none
  birthtime : Option Nat := none
  error : Option (Nat × String) := none
  lastError : Option String := none
  deriving Repr, DecidableEq

/-- The source registry object `assetSourceRegistry`. -/
abbrev SourceRegistry := List (String × AssetSourceEntry)

/-- Common tail of `registerAssetSource(assetKey, dict)` after the merge:
the `contentURL`-normalization `else` branch (an entry without `contentURL`
gets `[]`) and the `submitter → submitTime = Date.now()` stamp.  Used by
the narrow patches below, whose `dict` never carries `contentURL`. -/
def registerAssetSourceFinish (reg : SourceRegistry) (now : Nat) (assetKey : String)
    (entry : AssetSourceEntry) : SourceRegistry :=
  let entry := if entry.contentURL = none
    then { entry with contentURL := some (Sum.inr []) } else entry
  let entry := if entry.submitter then { entry with submitTime := some now } else entry
  alist.insert reg assetKey entry

/-- `registerAssetSource(assetKey, { error: v })` where `v` is `undefined`
(delete the `error` field) or a `{ time, error }` record. -/
def registerAssetSourceError (reg : SourceRegistry) (now : Nat) (assetKey : String)
    (v : Option (Nat × String)) : SourceRegistry :=
  let entry := (alist.lookup reg assetKey).getD {}
  registerAssetSourceFinish reg now assetKey { entry with error := v }

/-- `registerAssetSource(assetKey, { birthtime: undefined, error: undefined })`. -/
def registerAssetSourceClearBirthError (reg : SourceRegistry) (now : Nat)
    (assetKey : String) : SourceRegistry :=
  let entry := (alist.lookup reg assetKey).getD {}
  registerAssetSourceFinish reg now assetKey { entry with birthtime := none, error := none }

/-- The in-memory mutation `assetDetails.lastError = err` performed by the
`reportBack` helpers of `assets.get` and `getRemote`: visible on the shared
registry entry when one exists (no registry save is involved). -/
def setLastErrorField (reg : SourceRegistry) (assetKey : String)
    (err : Option String) : SourceRegistry :=
  match alist.lookup reg assetKey with
  | none => reg
  | some entry => alist.insert reg assetKey { entry with lastError := err }

/-! ### User assets (assets.js lines 856-876) and assets.put -/

/-- `readUserAsset(assetKey)`: read from settings storage (`vAPI.storage`),
missing or non-string values become `''`. -/
def readUserAsset (userStorage : List (String × String)) (assetKey : String) : ReadResult :=
  let content := (alist.lookup userStorage assetKey).getD ""
  ReadResult.mk assetKey content none none

/-- `saveUserAsset(assetKey, content)`: write to settings storage and echo
`{ assetKey, content }`. -/
def saveUserAsset (userStorage : List (String × String)) (assetKey content : String) :
    List (String × String) × (String × String) :=
  (alist.insert userStorage assetKey content, (assetKey, content))

/-- `assets.put(assetKey, content)` (assets.js lines 1086-1090): a key
matching `^user-` goes to settings storage via `saveUserAsset`, any other
key goes to the cache via `assetCacheWrite` (raw-string details, hence
`resourceTime = 0` and no URL). Returns the new user storage, the new cache
state and the `{ assetKey, content }` result. -/
def assetsPut (userStorage : List (String × String)) (st : AssetsState) (now : Nat)
    (assetKey content : String) :
    List (String × String) × AssetsState × (String × String) :=
  if reIsUserAssetTest assetKey then
    let (us, r) := saveUserAsset userStorage assetKey content
    (us, st, r)
  else
    let (st', r) := assetCacheWrite st now assetKey content none 0
    (userStorage, st', r)

/-! ### List assembler: assets.fetchFilterList (assets.js lines 346-464)

Fetches are modelled by a total oracle `fetchT : String → FetchResult`
standing for `assets.fetchText`; a scheduled-but-unsettled fetch is a
`Part.pending url`, and awaiting (`Promise.all`) replaces it with
`Part.res (fetchT url)`.  The external preparser
`sfp.utils.preparser.splitter` is a parameter `splitter : String → List String`
returning the slice texts (even positions are active slices, odd positions
are slices excluded by `!#if`), and `isDiffUpdatableAsset` — whose body runs
the metadata extractor on the content — is the parameter `isDiffUp`. -/

/-- One element of the assembler's `allParts` array: an already-resolved
string, a settled fetch result, or a pending fetch. -/
inductive Part where
  | str (s : String)
  | res (r : FetchResult)
  | pending (url : String)
  deriving Repr, DecidableEq

/-- `await Promise.all(allParts)`: settle every pending fetch. -/
def resolveParts (fetchT : String → FetchResult) (ps : List Part) : List Part :=
  ps.map (fun p => match p with | .pending u => .res (fetchT u) | p => p)

/-- `typeof part === 'object' && part.error !== undefined`. -/
def partIsErrored : Part → Bool
  | .res r => decide (r.error ≠ none)
  | _ => false

/-- `resourceTimeFromParts(parts, time)` (assets.js lines 118-124): running
maximum of `part.resourceTime || 0` over the object parts, seeded with `time`. -/
def resourceTimeFromParts (parts : List Part) (time : Nat) : Nat :=
  (parts.filter (fun p => match p with | .str _ => false | _ => true)).foldl
    (fun acc p => match p with
      | .res r => if r.resourceTime.getD 0 > acc then r.resourceTime.getD 0 else acc
      | _ => acc)
    time

/-- Newline characters recognized by the `[\n\r]` classes of `reInclude`. -/
def isNL (c : Char) : Bool := c = '\n' || c = '\r'

/-- Cut a slice into chunks, each one line of text together with the maximal
run of newline characters that follows it — exactly the shape consumed by a
global match of `reInclude`, whose matches start at line starts and swallow
the trailing `[\n\r]+` run.  `acc` is the current chunk reversed; `inNL`
records whether the last character was a newline, so a non-newline character
after a newline run closes the chunk. -/
def splitChunksAux : List Char → List Char → Bool → List (List Char)
  | [], acc, _ => if acc = [] then [] else [acc.reverse]
  | c :: cs, acc, inNL =>
    if isNL c then splitChunksAux cs (c :: acc) true
    else if inNL then acc.reverse :: splitChunksAux cs [c] false
    else splitChunksAux cs (c :: acc) false

/-- String wrapper of `splitChunksAux`. -/
def splitChunks (s : String) : List String :=
  (splitChunksAux s.data [] false).map (fun cs => String.mk cs)

/-- Match of `reInclude = ^!#include +(\S+)[^\n\r]*(?:[\n\r]+|$)` against a
chunk sitting at a line start: the literal `!#include`, one or more spaces,
then the captured maximal run of non-whitespace characters (the rest of the
line and its newline run always match).  Returns `match[1]`. -/
def parseIncludeDirective (chunk : String) : Option String :=
  let cs := chunk.data
  if cs.take 9 = "!#include".data then
    let rest := cs.drop 9
    let spaces := rest.takeWhile (fun c => c = ' ')
    if spaces = [] then none
    else
      let tok := (rest.drop spaces.length).takeWhile (fun c => !c.isWhitespace)
      if tok = [] then none else some (String.mk tok)
  else none

/-- Success of `toParsedURL(s)`, i.e. of `new URL(s.trim())`.  The WHATWG URL
parser is external to this module; it accepts exactly the inputs carrying an
explicit scheme, modelled as `[A-Za-z][A-Za-z0-9+.-]* :` after trimming. -/
def toParsedURLIsSome (s : String) : Bool :=
  match (jsTrim s).data with
  | [] => false
  | c :: rest =>
    let schemeRest := rest.takeWhile
      (fun ch => ch.isAlphanum || ch = '+' || ch = '.' || ch = '-')
    c.isAlpha &&
      (match rest.drop schemeRest.length with
       | ':' :: _ => true
       | _ => false)

/-- Two consecutive dots somewhere in the character list. -/
def hasDotDot : List Char → Bool
  | '.' :: '.' :: _ => true
  | _ :: rest => hasDotDot rest
  | [] => false

/-- `s.indexOf('..') !== -1`. -/
def strContainsDotDot (s : String) : Bool :=
  hasDotDot s.data

/-- `pos = url.lastIndexOf('/')`; `none` when `pos === -1`, otherwise
`url.slice(0, pos + 1)` (everything up to and including the last slash). -/
def dirOf (url : String) : Option String :=
  if url.data.contains '/' then
    some (String.mk (url.data.reverse.dropWhile (fun c => c ≠ '/')).reverse)
  else none

/-- The guard chain applied to one line chunk by the match loop of
`processIncludeDirectives` (lines 404-413): `none` when the chunk is not an
`!#include` directive or the directive is skipped — absolute-URL path,
path containing `..`, parent URL without a `/`, or sub-URL already
scheduled (each `continue` of the source) — else the resolved sub-URL
`result.url.slice(0, pos + 1) + match[1].trim()`. -/
def includeSubURL (parentURL : String) (subs : List String) (chunk : String) :
    Option String :=
  match parseIncludeDirective chunk with
  | none => none
  | some tok =>
    if toParsedURLIsSome tok then none
    else if strContainsDotDot tok then none
    else
      match dirOf parentURL with
      | none => none
      | some dir =>
        let subURL := dir ++ jsTrim tok
        if subs.contains subURL then none else some subURL

/-- The inner `for (;;)` match loop of `processIncludeDirectives` over one
active slice, line-chunk by line-chunk.  `acc` is the text between the local
`lastIndex` and the scan position; a skipped directive stays inside `acc`,
while an accepted one emits the pending text, the `! >>>>>>>> ` banner, the
pending sub-fetch and the `! <<<<<<<< ` banner, and schedules the sub-URL.
The final `out.push` of the remaining slice text is the `[Part.str acc]`
base case. -/
def scanActiveSlice (parentURL : String) :
    List String → String → List String → (List Part × List String)
  | [], acc, subs => ([Part.str acc], subs)
  | chunk :: rest, acc, subs =>
    match includeSubURL parentURL subs chunk with
    | none => scanActiveSlice parentURL rest (acc ++ chunk) subs
    | some subURL =>
      let r := scanActiveSlice parentURL rest "" (subURL :: subs)
      (Part.str (acc ++ chunk) :: Part.str ("! >>>>>>>> " ++ subURL ++ "\n") ::
        Part.pending subURL :: Part.str ("! <<<<<<<< " ++ subURL ++ "\n") :: r.1,
       r.2)

/-- The `for i` loop over the splitter slices of one settled result: odd
slices (inside an excluded `!#if`) are emitted verbatim; even slices are
scanned for `!#include` directives — except that when `rootDirectoryURL`
is `undefined` the match loop breaks immediately and the slice is emitted
whole.  The scheduled-set is threaded left to right. -/
def processSlices (parentURL : String) (rootDirOk : Bool) :
    List String → Bool → List String → (List Part × List String)
  | [], _, subs => ([], subs)
  | slice :: rest, odd, subs =>
    if odd then
      let r := processSlices parentURL rootDirOk rest (!odd) subs
      (Part.str slice :: r.1, r.2)
    else if rootDirOk = false then
      let r := processSlices parentURL rootDirOk rest (!odd) subs
      (Part.str slice :: r.1, r.2)
    else
      let r1 := scanActiveSlice parentURL (splitChunks slice) "" subs
      let r2 := processSlices parentURL rootDirOk rest (!odd) r1.2
      (r1.1 ++ r2.1, r2.2)

/-- `processIncludeDirectives(results)` (assets.js lines 381-426): strings
pass through, settled results have their content split by the preparser and
scanned slice by slice; sub-URLs resolve against `result.url` (the parent
list, not the root).  A pending part would be skipped by the
`instanceof Object` guard pattern; after an await none remains. -/
def processIncludeDirectives (splitter : String → List String) (rootDirOk : Bool) :
    List Part → List String → (List Part × List String)
  | [], subs => ([], subs)
  | Part.str s :: rest, subs =>
    let r := processIncludeDirectives splitter rootDirOk rest subs
    (Part.str s :: r.1, r.2)
  | Part.pending _ :: rest, subs =>
    processIncludeDirectives splitter rootDirOk rest subs
  | Part.res r :: rest, subs =>
    let r1 := processSlices r.url rootDirOk (splitter r.content) false subs
    let r2 := processIncludeDirectives splitter rootDirOk rest r1.2
    (r1.1 ++ r2.1, r2.2)

/-- The sub-fetch URLs scheduled by a list of parts (the pending
`assets.fetchText(subURL)` promises, in emission order). -/
def pendingURLs (ps : List Part) : List String :=
  ps.filterMap (fun p => match p with | .pending u => some u | _ => none)

/-- Return value of `assets.fetchFilterList`. -/
structure FFLResult where
  url : String
  content : String
  error : Option String := none
  resourceTime : Option Nat := none
  deriving Repr, DecidableEq

/-- String content of a settled part (`allParts.join('')` sees strings only). -/
def partToString : Part → String
  | .str s => s
  | _ => ""

/-- The diff-updatable single-part short-circuit of the assembler loop
(lines 447-453): with exactly one part, a settled object whose content is
diff-updatable is taken as the final content with no include expansion. -/
def diffShortCircuit (isDiffUp : String → Bool) : List Part → Option String
  | [Part.res r] => if isDiffUp r.content then some r.content else none
  | _ => none

/-- The `do … while` loop of `assets.fetchFilterList` (lines 439-463), with
fuel: awaits all parts, aborts with `{ url, content: '', error }` as soon as
any settled part carries an error, short-circuits include expansion for a
single diff-updatable part, otherwise expands includes and loops while any
non-string part remains; on exit the parts are joined (`+ '\n'` when more
than one). -/
def fetchFilterListLoop (fetchT : String → FetchResult) (splitter : String → List String)
    (isDiffUp : String → Bool) (rootDirOk : Bool) (mainlistURL : String) :
    Nat → List Part → List String → Nat → Option FFLResult
  | 0, _, _, _ => none
  | Nat.succ fuel, parts, subs, resourceTime =>
    let allParts := resolveParts fetchT parts
    match allParts.find? partIsErrored with
    | some p =>
      some { url := mainlistURL, content := "",
             error := match p with | .res r => r.error | _ => none }
    | none =>
      let resourceTime := resourceTimeFromParts allParts resourceTime
      match diffShortCircuit isDiffUp allParts with
      | some c =>
        some { url := mainlistURL, resourceTime := some resourceTime, content := c }
      | none =>
        let pr := processIncludeDirectives splitter rootDirOk allParts subs
        if pr.1.any (fun p => match p with | Part.str _ => false | _ => true) then
          fetchFilterListLoop fetchT splitter isDiffUp rootDirOk mainlistURL
            fuel pr.1 pr.2 resourceTime
        else
          some { url := mainlistURL, resourceTime := some resourceTime,
                 content := match pr.1 with
                   | [Part.str s] => s
                   | ps => String.join (ps.map partToString) ++ "\n" }

/-- `assets.fetchFilterList(mainlistURL)`: seed the loop with the pending
main-list fetch, an empty `sublistURLs` set and `resourceTime = 0`.
`rootDirOk` tells whether `rootDirectoryURL` parsed and contained a slash
(lines 361-374, computed through the external URL parser). -/
def fetchFilterListModel (fetchT : String → FetchResult) (splitter : String → List String)
    (isDiffUp : String → Bool) (rootDirOk : Bool) (mainlistURL : String)
    (fuel : Nat) : Option FFLResult :=
  fetchFilterListLoop fetchT splitter isDiffUp rootDirOk mainlistURL
    fuel [Part.pending mainlistURL] [] 0

/-! ### Remote refresher: getRemote (assets.js lines 969-1082) -/

/-- Return value of `getRemote`. -/
structure GetRemoteResult where
  assetKey : String
  content : String
  error : Option String := none
  deriving Repr, DecidableEq

/-- The fields of a `fetchFilterList` / `fetchText` result that `getRemote`
reads (`statusCode`/`statusText` are `undefined` on an assembler result). -/
structure RemoteFetched where
  content : String
  statusCode : Option Nat := none
  statusText : Option String := none
  resourceTime : Option Nat := none
  deriving Repr, DecidableEq

/-- `contentURL.replace(/\/assets\/assets\.json$/, µb.assetsJsonPath)`
(the string `"/assets/assets.json"` has 19 characters). -/
def replaceAssetsJsonSuffix (assetsJsonPath url : String) : String :=
  if strEndsWith url "/assets/assets.json" then url.dropRight 19 ++ assetsJsonPath
  else url

/-- Swap two positions of a list (out-of-range indices leave it unchanged). -/
def swapAt {α : Type} (l : List α) (i j : Nat) : List α :=
  match l.get? i, l.get? j with
  | some a, some b => (l.set i b).set j a
  | _, _ => l

/-- The in-place shuffle of `cdnURLs.slice()` (assets.js lines 1005-1010):
for each `i`, draw `j = Math.floor(Math.random() * n)` — the draws are the
`rands` parameter, each `< n` for a genuine `Math.random` — and swap unless
`j === i`. -/
def shuffleCdnURLs (rands : List Nat) (urls : List String) : List String :=
  (List.range urls.length).foldl
    (fun acc i =>
      let j := rands.getD i 0
      if j = i then acc else swapAt acc i j)
    urls

/-- The `for ( let contentURL of contentURLs )` loop of `getRemote` together
with its epilogue (lines 1018-1081).  `fetchOne` dispatches to the list
assembler or the text fetcher (`none` = assembler ran out of fuel);
`extractMeta` stands for `extractMetadataFromList` on the five cached fields;
`error` and `stale` are the loop-carried locals.  Non-external URLs are
skipped; an empty fetched content records an error and continues; a stale
result (older than the cached copy) is skipped with `error` reset; a fresh
non-empty result is written to the cache (content, URL, resource time, and
for filter lists the extracted metadata) and reported.  With all URLs
exhausted: a recorded error registers `lastError` and reports `ENOTFOUND`;
otherwise, if the last considered result was stale, the cache entry's
`writeTime` is reset to the cached `resourceTime` and an error-free empty
result is reported. -/
def getRemoteGo (fetchOne : String → Option RemoteFetched)
    (extractMeta : String → MetadataPatch) (assetsJsonPath : String) (now : Nat)
    (assetKey : String) (isFilters : Bool) (cacheResourceTime : Option Nat) :
    List String → Option String → Bool → AssetsState → SourceRegistry →
    Option (GetRemoteResult × AssetsState × SourceRegistry)
  | [], error, stale, st, reg =>
    match error with
    | some e =>
      let reg := registerAssetSourceError reg now assetKey (some (now, e))
      let reg := setLastErrorField reg assetKey (some "ENOTFOUND")
      some ({ assetKey := assetKey, content := "", error := some "ENOTFOUND" }, st, reg)
    | none =>
      let st := if stale then assetCacheSetDetailsWriteTime st assetKey cacheResourceTime
                else st
      let reg := setLastErrorField reg assetKey none
      some ({ assetKey := assetKey, content := "", error := none }, st, reg)
  | url :: rest, error, stale, st, reg =>
    if isExternalPath url = false then
      getRemoteGo fetchOne extractMeta assetsJsonPath now assetKey isFilters
        cacheResourceTime rest error stale st reg
    else
      let url := if assetKey = "assets.json" then replaceAssetsJsonSuffix assetsJsonPath url
                 else url
      match fetchOne url with
      | none => none
      | some result =>
        if stringIsNotEmpty result.content = false then
          let error := if result.statusCode = some 0 then some "network error"
                       else result.statusText
          getRemoteGo fetchOne extractMeta assetsJsonPath now assetKey isFilters
            cacheResourceTime rest error stale st reg
        else
          let stale := resourceIsStale result.resourceTime cacheResourceTime
          if stale then
            getRemoteGo fetchOne extractMeta assetsJsonPath now assetKey isFilters
              cacheResourceTime rest none stale st reg
          else
            let st := (assetCacheWrite st now assetKey result.content (some url)
              (result.resourceTime.getD 0)).1
            let st := if isFilters then
                assetCacheSetDetailsMeta st assetKey (extractMeta result.content)
              else st
            let reg := registerAssetSourceClearBirthError reg now assetKey
            let reg := setLastErrorField reg assetKey none
            some ({ assetKey := assetKey, content := result.content, error := none }, st, reg)

/-- `contentURL` list build shared by `getRemote` (lines 991-996): a string
becomes a singleton, an array is spread, anything else contributes nothing. -/
def contentURLsOf (e : AssetSourceEntry) : List String :=
  match e.contentURL with
  | some (Sum.inl s) => [s]
  | some (Sum.inr l) => l
  | none => []

/-- URL list built by `getRemote` (lines 991-1016): the `contentURL` list,
with the shuffled CDN URLs prepended when `remoteServerFriendly` and
appended otherwise. -/
def getRemoteContentURLs (e : AssetSourceEntry) (remoteServerFriendly : Bool)
    (rands : List Nat) : List String :=
  let contentURLs := contentURLsOf e
  match e.cdnURLs with
  | some cdns =>
    let cdns := shuffleCdnURLs rands cdns
    if remoteServerFriendly then cdns ++ contentURLs else contentURLs ++ cdns
  | none => contentURLs

/-- Per-URL fetch dispatch of `getRemote` (lines 1031-1033): the list
assembler for filter-type assets (`none` on fuel exhaustion), the text
fetcher otherwise. -/
def getRemoteFetchOne (fetchT : String → FetchResult) (splitter : String → List String)
    (isDiffUp : String → Bool) (rootDirOkOf : String → Bool) (fuel : Nat)
    (isFilters : Bool) (url : String) : Option RemoteFetched :=
  if isFilters then
    (fetchFilterListModel fetchT splitter isDiffUp (rootDirOkOf url) url fuel).map
      (fun r => RemoteFetched.mk r.content none none r.resourceTime)
  else
    some (RemoteFetched.mk (fetchT url).content (fetchT url).statusCode
      (fetchT url).statusText (fetchT url).resourceTime)

/-- `getRemote(assetKey)`: look up both registries, build the URL list
(CDN URLs shuffled, prepended under `remoteServerFriendly` else appended),
then run the fetch loop. -/
def getRemoteModel (fetchT : String → FetchResult) (splitter : String → List String)
    (isDiffUp : String → Bool) (rootDirOkOf : String → Bool) (fuel : Nat)
    (extractMeta : String → MetadataPatch) (assetsJsonPath : String)
    (remoteServerFriendly : Bool) (rands : List Nat) (now : Nat)
    (st : AssetsState) (reg : SourceRegistry) (assetKey : String) :
    Option (GetRemoteResult × AssetsState × SourceRegistry) :=
  let assetDetails := (alist.lookup reg assetKey).getD {}
  let cacheResourceTime := (alist.lookup st.cacheRegistry assetKey).bind
    (fun e => e.resourceTime)
  let contentURLs := getRemoteContentURLs assetDetails remoteServerFriendly rands
  let isFilters := assetDetails.content = some "filters"
  getRemoteGo (getRemoteFetchOne fetchT splitter isDiffUp rootDirOkOf fuel isFilters)
    extractMeta assetsJsonPath now assetKey isFilters
    cacheResourceTime contentURLs none false st reg

/-! ### Get orchestrator: assets.get (assets.js lines 880-965) -/

/-- Options bag of `assets.get`. -/
structure GetOptions where
  needSourceURL : Bool := false
  dontCache : Bool := false
  silent : Bool := false
  deriving Repr, DecidableEq

/-- The `reportBack` helper of `assets.get` (lines 887-907) minus its
`lastError` side effect: build the details object, and under
`needSourceURL` take `sourceURL` from the cache entry's `remoteURL` (when no
URL was passed) or from the external URL used. -/
def getReportBack (st : AssetsState) (needSourceURL : Bool)
    (assetKey content url : String) (err : Option String) : ReadResult :=
  let details := ReadResult.mk assetKey content err none
  if needSourceURL then
    let details :=
      if url = "" then
        match alist.lookup st.cacheRegistry assetKey with
        | some e => { details with sourceURL := e.remoteURL }
        | none => details
      else details
    if isExternalPath url then { details with sourceURL := some url } else details
  else details

/-- The `for ( const contentURL of contentURLs )` loop of `assets.get`
(lines 938-958): returns `none` on assembler fuel exhaustion, otherwise the
first non-empty content with its URL (caching external hits and clearing the
source `error` field on the way), the final `error` local, and the state. -/
def assetsGetLoop (fetchOne : String → Option (String × Option String))
    (hasLocalURL dontCache : Bool) (now : Nat) (assetKey : String) :
    List String → String → AssetsState → SourceRegistry →
    Option (Option (String × String) × String × AssetsState × SourceRegistry)
  | [], error, st, reg => some (none, error, st, reg)
  | url :: rest, error, st, reg =>
    if isExternalPath url && hasLocalURL then
      assetsGetLoop fetchOne hasLocalURL dontCache now assetKey rest error st reg
    else
      match fetchOne url with
      | none => none
      | some (content, err) =>
        let error := match err with | some e => e | none => error
        if content = "" then
          assetsGetLoop fetchOne hasLocalURL dontCache now assetKey rest error st reg
        else if isExternalPath url && !dontCache then
          let st := (assetCacheWrite st now assetKey content (some url) 0).1
          let reg := registerAssetSourceError reg now assetKey none
          some (some (content, url), error, st, reg)
        else
          some (some (content, url), error, st, reg)

/-- `assets.get(assetKey, options)`: a key equal to `µb.userFiltersPath`
(external configuration, `'user-filters'` in the product) reads the user
asset from settings storage; otherwise the cache is read first
(`updateReadTime` false only for `compiled/` and `selfie/` keys), and on a
miss the source registry drives the URL fallback loop, with an external
asset-key-as-URL treated as a filter list.  Returns `none` only on
assembler fuel exhaustion. -/
def assetsGet (userFiltersPath : String) (fetchT : String → FetchResult)
    (splitter : String → List String) (isDiffUp : String → Bool)
    (rootDirOkOf : String → Bool) (fuel : Nat)
    (userStorage : List (String × String)) (now : Nat)
    (st : AssetsState) (reg : SourceRegistry) (assetKey : String)
    (options : GetOptions := {}) :
    Option (ReadResult × AssetsState × SourceRegistry) :=
  if assetKey = userFiltersPath then
    some (readUserAsset userStorage assetKey, st, reg)
  else
    let updateReadTime := !(strStartsWith assetKey "compiled/" || strStartsWith assetKey "selfie/")
    let rd := assetCacheRead st now assetKey updateReadTime
    let st := rd.2.1
    if rd.1.content ≠ "" then
      some (getReportBack st options.needSourceURL assetKey rd.1.content "" none, st, reg)
    else
      let entryExists := (alist.lookup reg assetKey).isSome
      let assetDetails := (alist.lookup reg assetKey).getD {}
      let adURLs : AssetSourceEntry × List String :=
        match assetDetails.contentURL with
        | some (Sum.inl s) => (assetDetails, [s])
        | some (Sum.inr l) => (assetDetails, l)
        | none =>
          if isExternalPath assetKey then
            ({ assetDetails with content := some "filters" }, [assetKey])
          else (assetDetails, [])
      let assetDetails := adURLs.1
      let contentURLs := adURLs.2 ++ (assetDetails.cdnURLs.getD [])
      let isFilters := assetDetails.content = some "filters"
      let fetchOne := fun url =>
        if isFilters then
          (fetchFilterListModel fetchT splitter isDiffUp (rootDirOkOf url) url fuel).map
            (fun r => (r.content, r.error))
        else
          some ((fetchT url).content, (fetchT url).error)
      match assetsGetLoop fetchOne assetDetails.hasLocalURL options.dontCache now assetKey
          contentURLs "ENOTFOUND" st reg with
      | none => none
      | some (found, error, st, reg) =>
        match found with
        | some (content, url) =>
          let reg := if entryExists then setLastErrorField reg assetKey none else reg
          some (getReportBack st options.needSourceURL assetKey content url none, st, reg)
        | none =>
          let reg := if entryExists then
              registerAssetSourceError reg now assetKey (some (now, error))
            else reg
          let reg := if entryExists then setLastErrorField reg assetKey (some error) else reg
          some (getReportBack st options.needSourceURL assetKey "" "" (some error), st, reg)

/-! ### Update scheduler: candidate selection (assets.js lines 1295-1347) -/

/-- `MS_PER_HOUR`, `MS_PER_DAY`, `EXPIRES_DEFAULT` (assets.js lines 38-40). -/
def MS_PER_DAY : Nat := 24 * (60 * 60 * 1000)

/-- `getUpdateAfterTime(assetKey, diff)` (lines 138-155), in milliseconds as
a rational (expirations are fractional days). -/
def getUpdateAfterTime (st : AssetsState) (reg : SourceRegistry) (assetKey : String)
    (diff : Bool := false) : Rat :=
  let fromSource : Rat :=
    match (alist.lookup reg assetKey).bind (fun e => e.updateAfter) with
    | some ua => ua * (MS_PER_DAY : Rat)
    | none => (7 : Rat) * (MS_PER_DAY : Rat)
  match alist.lookup st.cacheRegistry assetKey with
  | some entry =>
    match (if diff then entry.diffExpires else none) with
    | some de => de * (MS_PER_DAY : Rat)
    | none =>
      match entry.expires with
      | some e => e * (MS_PER_DAY : Rat)
      | none => fromSource
  | none => fromSource

/-- `getWriteTime(assetKey)` (lines 157-161): `entry.writeTime || 0`. -/
def getWriteTime (st : AssetsState) (assetKey : String) : Nat :=
  match alist.lookup st.cacheRegistry assetKey with
  | some entry => entry.writeTime.getD 0
  | none => 0

/-- Sort key of `toUpdate.sort` (lines 1322-1326):
`cacheDict[a] !== undefined ? cacheDict[a].writeTime : 0` (an entry always
receives `writeTime` on write; an absent field reads as 0 like
`getWriteTime`). -/
def updateSortKey (st : AssetsState) (assetKey : String) : Nat :=
  match alist.lookup st.cacheRegistry assetKey with
  | some entry => entry.writeTime.getD 0
  | none => 0

/-- Stable insertion into an ascending list: the inserted element goes after
every element with a key not above its own, as `Array.prototype.sort`
(stable) does with the `ta - tb` comparator. -/
def insertByKey (key : String → Nat) (x : String) : List String → List String
  | [] => [x]
  | y :: ys => if key y ≤ key x then y :: insertByKey key x ys else x :: y :: ys

/-- Stable ascending sort by key (left fold of stable insertions). -/
def sortByKey (key : String → Nat) (l : List String) : List String :=
  l.foldl (fun acc x => insertByKey key x acc) []

/-- `getUpdateCandidates()` (lines 1295-1328): walk the source registry in
order; keep keys with a remote URL, not fetched this cycle, whose
`before-asset-updated` observers answered `true`; other keys whose cache
entry was last read before process start are garbage-collected (second
component).  The kept keys are sorted by ascending `writeTime` ("update most
obsolete asset first"). -/
def getUpdateCandidatesModel (reg : SourceRegistry) (st : AssetsState)
    (updaterFetched : List String) (observer : String → Bool)
    (cacheRegistryStartTime : Nat) : List String × List String :=
  let acc := reg.foldl
    (fun (acc : List String × List String) kv =>
      let assetKey := kv.1
      let assetEntry := kv.2
      if assetEntry.hasRemoteURL ≠ true then acc
      else if updaterFetched.contains assetKey then acc
      else if observer assetKey then (acc.1 ++ [assetKey], acc.2)
      else
        match alist.lookup st.cacheRegistry assetKey with
        | some ce =>
          match ce.readTime with
          | some rt =>
            if rt < cacheRegistryStartTime then (acc.1, acc.2 ++ [assetKey]) else acc
          | none => acc
        | none => acc)
    ([], [])
  (sortByKey (updateSortKey st) acc.1, acc.2)

/-- The candidate-selection prefix of `updateNext()` (lines 1330-1346): drop
candidates with `writeTime + updateAfter > now`, then take
`toHardUpdate.pop()` — the LAST element of the ascending-sorted survivors.
`none` means the cycle ends (`updateDone`). -/
def updateNextSelection (reg : SourceRegistry) (st : AssetsState)
    (updaterFetched : List String) (observer : String → Bool)
    (cacheRegistryStartTime now : Nat) : Option String :=
  let toUpdate := (getUpdateCandidatesModel reg st updaterFetched observer
    cacheRegistryStartTime).1
  let toHardUpdate := toUpdate.filter
    (fun assetKey =>
      !(((getWriteTime st assetKey : Rat) + getUpdateAfterTime st reg assetKey false) >
        (now : Rat)))
  toHardUpdate.getLast?

/-! ### Concrete demonstration data used by witnesses and counterexamples -/

/-- Two update candidates, both overdue: `"a"` was written at 1000 and `"b"`
at 2000 (both have content and a remote URL). -/
def updaterDemoReg : SourceRegistry :=
  [("a", { hasRemoteURL := true }), ("b", { hasRemoteURL := true })]

/-- Cache-side state for the two update candidates. -/
def updaterDemoState : AssetsState :=
  { cacheRegistry := [("a", { writeTime := some 1000 }), ("b", { writeTime := some 2000 })],
    storage := [("cache/a", "x"), ("cache/b", "y")] }

/-- A cache state holding content `"CACHED"` for the key `user-x`. -/
def userDemoState : AssetsState :=
  { cacheRegistry :=
      [("user-x", { writeTime := some 1, readTime := some 1, resourceTime := some 0 })],
    storage := [("cache/user-x", "CACHED")] }

/-- A fetch oracle returning empty bodies (never reached in the C4 runs). -/
def userDemoFetch : String → FetchResult := fun u => { url := u, content := "" }

/-- A fetch oracle that fails every URL with the error `"oops"`. -/
def c3DemoFetch : String → FetchResult := fun u =>
  { url := u, content := "", error := some "oops" }

/-- Source registry of the C1 witness: one external URL, no CDN mirrors. -/
def staleDemoReg : SourceRegistry :=
  [("easylist", { contentURL := some (Sum.inr ["https://h/e.txt"]) })]

/-- Cache state of the C1 witness: cached content `"OLD"` with
`resourceTime` 2000. -/
def staleDemoState : AssetsState :=
  { cacheRegistry := [("easylist",
      { writeTime := some 50, readTime := some 60, resourceTime := some 2000 })],
    storage := [("cache/easylist", "OLD")] }

/-- Fetch oracle of the C1 witness: the remote copy carries `resourceTime`
1000, strictly older than the cached 2000. -/
def staleDemoFetch : String → FetchResult := fun u =>
  { url := u, content := "NEW", resourceTime := some 1000 }

/-! ## Theorems settling the claims -/

/-- Claim C5: `parseExpires "2d" = 2`, `parseExpires "12h" = ceil(12/6)/4 = 0.5`,
`parseExpires "garbage" = 0`; and the metadata extractor floors a present
`Expires` value at 0.5 day and a present `Diff-Expires` value at 0.25 day. -/
theorem parseExpires_values_and_metadata_floors :
    parseExpires "2d" = 2 ∧
    parseExpires "12h" = 1 / 2 ∧
    parseExpires "garbage" = 0 ∧
    (∀ s : String, processExpiresField (some s) = some (max (parseExpires s) (1 / 2))) ∧
    (∀ s : String, processDiffExpiresField (some s) = some (max (parseExpires s) (1 / 4))) := by
  refine ⟨rfl, ?_, rfl, fun _ => rfl, fun _ => rfl⟩
  have h : parseExpiresMatch "12h" = some (12, some 'h') := rfl
  unfold parseExpires
  rw [h]
  norm_num

/-- Claim C10: the unit letter of `parseExpires` is matched case-insensitively
(`"12H"` captures `'H'`) but the hours-to-days conversion fires only on a
lowercase `'h'`, so `parseExpires "12H" = 12`, not `0.5`. -/
theorem parseExpires_uppercase_hour_not_converted :
    parseExpiresMatch "12H" = some (12, some 'H') ∧
    parseExpires "12H" = 12 ∧
    parseExpires "12h" ≠ 12 := by
  refine ⟨rfl, rfl, ?_⟩
  have h : parseExpiresMatch "12h" = some (12, some 'h') := rfl
  unfold parseExpires
  rw [h]
  norm_num

/-- Claim C6: a fetched body whose trimmed content starts with `<` and ends
with `>` is cleared and flagged `assets.fetchText(): Not a text file`; a
trimmed body starting with `<` but not ending with `>` is preserved. -/
theorem fetchText_html_rejection (d : FetchResult) :
    ((strStartsWith (jsTrim d.content) "<" = true ∧
      strEndsWith (jsTrim d.content) ">" = true) →
      (fetchTextPostprocess d).content = "" ∧
      (fetchTextPostprocess d).error = some "assets.fetchText(): Not a text file") ∧
    ((strStartsWith (jsTrim d.content) "<" = true ∧
      strEndsWith (jsTrim d.content) ">" = false) →
      (fetchTextPostprocess d).content = d.content) := by
  constructor
  · rintro ⟨h1, h2⟩
    have hc : d.content ≠ "" := by
      intro hc
      rw [hc] at h1
      exact absurd h1 (by decide)
    simp [fetchTextPostprocess, stringIsNotEmpty, hc, h1, h2]
  · rintro ⟨h1, h2⟩
    have hc : d.content ≠ "" := by
      intro hc
      rw [hc] at h1
      exact absurd h1 (by decide)
    simp [fetchTextPostprocess, stringIsNotEmpty, hc, h1, h2]

/-- Witness for C6 at the spec's boundary inputs: `"<html></html>"` is
rejected, `"<!"` is preserved. -/
theorem fetchText_html_rejection_witness :
    ((fetchTextPostprocess { url := "u", content := "<html></html>" }).content = "" ∧
      (fetchTextPostprocess { url := "u", content := "<html></html>" }).error =
        some "assets.fetchText(): Not a text file") ∧
    (fetchTextPostprocess { url := "u", content := "<!" }).content = "<!" :=
  ⟨(fetchText_html_rejection { url := "u", content := "<html></html>" }).1
      ⟨by decide, by decide⟩,
   (fetchText_html_rejection { url := "u", content := "<!" }).2
      ⟨by decide, by decide⟩⟩

/-- Claim C8: for an external URL fetched outside remote-server-friendly
mode, `fetchText` appends a cache-busting query parameter whose token is
`floor(now/1000) % 86413` under `updateAssetBypassBrowserCache` and
`floor(now/3600000) % 13` otherwise. -/
theorem fetchText_cache_bust_token (getURL : String → String) (bypass : Bool)
    (now : Nat) (url : String) (hext : isExternalPath url = true) :
    fetchTextActualURL getURL bypass false now url =
      (if url.data.contains '?' then url ++ "&" else url ++ "?") ++
        ("_=" ++ toString (cacheBypassToken bypass now)) ∧
    cacheBypassToken true now = now / 1000 % 86413 ∧
    cacheBypassToken false now = now / 3600000 % 13 := by
  refine ⟨?_, rfl, rfl⟩
  simp [fetchTextActualURL, hext]

/-- Witness for C8 at a concrete external URL and time. -/
theorem fetchText_cache_bust_token_witness :
    fetchTextActualURL id false false 7200000000 "https://h/e.txt" =
      (if ("https://h/e.txt" : String).data.contains '?' then "https://h/e.txt" ++ "&"
       else "https://h/e.txt" ++ "?") ++
        ("_=" ++ toString (cacheBypassToken false 7200000000)) ∧
    cacheBypassToken true 7200000000 = 7200000000 / 1000 % 86413 ∧
    cacheBypassToken false 7200000000 = 7200000000 / 3600000 % 13 :=
  fetchText_cache_bust_token id false 7200000000 "https://h/e.txt" (by decide)

/-- Claim C9: when `assetCacheRead` finds both the content blob and the
registry entry, it sets the entry's `readTime` to now whatever
`updateReadTime` is; the flag only decides whether the debounced registry
save is scheduled. -/
theorem assetCacheRead_updates_readTime (st : AssetsState) (now : Nat)
    (assetKey blob : String) (entry : CacheEntry) (updateReadTime : Bool)
    (hblob : alist.lookup st.storage ("cache/" ++ assetKey) = some blob)
    (hentry : alist.lookup st.cacheRegistry assetKey = some entry) :
    (assetCacheRead st now assetKey updateReadTime).2.1.cacheRegistry =
      alist.insert st.cacheRegistry assetKey { entry with readTime := some now } ∧
    (assetCacheRead st now assetKey updateReadTime).2.2 = updateReadTime := by
  simp [assetCacheRead, hblob, hentry]

/-- Witness for C9 with `updateReadTime = false` on a one-entry cache. -/
theorem assetCacheRead_updates_readTime_witness :
    (assetCacheRead
        { cacheRegistry := [("k", { writeTime := some 5 })],
          storage := [("cache/k", "body")] } 42 "k" false).2.1.cacheRegistry =
      alist.insert [("k", { writeTime := some 5 })] "k"
        { CacheEntry.mk (some 5) none none none none none none none none with
            readTime := some 42 } ∧
    (assetCacheRead
        { cacheRegistry := [("k", { writeTime := some 5 })],
          storage := [("cache/k", "body")] } 42 "k" false).2.2 = false :=
  assetCacheRead_updates_readTime
    { cacheRegistry := [("k", { writeTime := some 5 })],
      storage := [("cache/k", "body")] }
    42 "k" "body" { writeTime := some 5 } false (by decide) (by decide)

/-- Claim C2 (code bug): `getUpdateCandidates` sorts the candidates by
ascending `writeTime` ("update most obsolete asset first"), but `updateNext`
takes `toHardUpdate.pop()` — the last, hence NEWEST, eligible candidate.
With both candidates overdue at `now = 10^12`, the one selected is `"b"`
(`writeTime` 2000), not the oldest `"a"` (`writeTime` 1000). -/
theorem updateNext_selects_newest_candidate :
    updateNextSelection updaterDemoReg updaterDemoState [] (fun _ => true)
        0 1000000000000 = some "b" ∧
    getWriteTime updaterDemoState "a" = 1000 ∧
    getWriteTime updaterDemoState "b" = 2000 ∧
    getWriteTime updaterDemoState "a" < getWriteTime updaterDemoState "b" := by
  have hwa : getWriteTime updaterDemoState "a" = 1000 := rfl
  have hwb : getWriteTime updaterDemoState "b" = 2000 := rfl
  refine ⟨?_, hwa, hwb, by rw [hwa, hwb]; decide⟩
  have hcand : (getUpdateCandidatesModel updaterDemoReg updaterDemoState []
      (fun _ => true) 0).1 = ["a", "b"] := rfl
  have hua : getUpdateAfterTime updaterDemoState updaterDemoReg "a" false
      = 7 * ((MS_PER_DAY : Nat) : Rat) := rfl
  have hub : getUpdateAfterTime updaterDemoState updaterDemoReg "b" false
      = 7 * ((MS_PER_DAY : Nat) : Rat) := rfl
  unfold updateNextSelection
  rw [hcand]
  simp only [List.filter_cons, List.filter_nil, hwa, hwb, hua, hub, MS_PER_DAY]
  norm_num

/-- Claim C4 is false as stated: `assets.get` tests
`assetKey === µb.userFiltersPath`, not the `^user-` pattern.  For the key
`"user-x"` (which matches `^user-`) with `userFiltersPath = "user-filters"`,
`get` consults — and mutates — the cache: it returns the cached content
`"CACHED"` and bumps the entry's `readTime`, instead of the settings-storage
value `"USER"` that the user-asset read would give. -/
theorem assetsGet_user_prefix_counterexample :
    reIsUserAssetTest "user-x" = true ∧
    (assetsGet "user-filters" userDemoFetch (fun s => [s]) (fun _ => false)
        (fun _ => true) 1 [("user-x", "USER")] 99 userDemoState [] "user-x" {}).map
      (fun r => (r.1.content, alist.lookup r.2.1.cacheRegistry "user-x")) =
      some ("CACHED",
        some { writeTime := some 1, readTime := some 99, resourceTime := some 0 }) ∧
    readUserAsset [("user-x", "USER")] "user-x" =
      { assetKey := "user-x", content := "USER", error := none, sourceURL := none } := by
  exact ⟨rfl, rfl, rfl⟩

/-- Claim C4 (amended): `assets.get` delegates to the user-asset read exactly
for the key equal to the configured `µb.userFiltersPath` (the single user
asset, itself a `user-` key in the product), leaving cache state and source
registry untouched; and `assets.put` stores through settings storage for
every key matching `^user-`, leaving the cache state untouched. -/
theorem assetsGet_userFiltersPath_put_user_prefix
    (ufp : String) (fetchT : String → FetchResult) (splitter : String → List String)
    (isDiffUp : String → Bool) (rootDirOkOf : String → Bool) (fuel : Nat)
    (userStorage : List (String × String)) (now : Nat) (st : AssetsState)
    (reg : SourceRegistry) (options : GetOptions) :
    assetsGet ufp fetchT splitter isDiffUp rootDirOkOf fuel userStorage now st reg
        ufp options = some (readUserAsset userStorage ufp, st, reg) ∧
    (∀ key content, reIsUserAssetTest key = true →
      assetsPut userStorage st now key content =
        ((saveUserAsset userStorage key content).1, st, (key, content))) := by
  constructor
  · simp [assetsGet]
  · intro key content hk
    simp [assetsPut, hk, saveUserAsset]

/-- Witness for the amended C4 at `userFiltersPath = "user-filters"`. -/
theorem assetsGet_userFiltersPath_put_user_prefix_witness :
    assetsGet "user-filters" userDemoFetch (fun s => [s]) (fun _ => false)
        (fun _ => true) 1 [("user-filters", "USER")] 99 userDemoState []
        "user-filters" {} =
      some (readUserAsset [("user-filters", "USER")] "user-filters", userDemoState, []) ∧
    assetsPut [("user-filters", "USER")] userDemoState 99 "user-filters" "NEW" =
      ((saveUserAsset [("user-filters", "USER")] "user-filters" "NEW").1, userDemoState,
        ("user-filters", "NEW")) := by
  have h := assetsGet_userFiltersPath_put_user_prefix "user-filters" userDemoFetch
    (fun s => [s]) (fun _ => false) (fun _ => true) 1 [("user-filters", "USER")] 99
    userDemoState [] {}
  exact ⟨h.1, h.2 "user-filters" "NEW" (by decide)⟩

/-- When the awaited parts contain an errored fetch result, the assembler
loop aborts with an empty synthetic error object built from the first such
part. -/
theorem fetchFilterListLoop_found_error (fetchT : String → FetchResult)
    (splitter : String → List String) (isDiffUp : String → Bool) (rootDirOk : Bool)
    (mainlistURL : String) (fuel : Nat) (parts : List Part) (subs : List String)
    (rt : Nat) (r : FetchResult)
    (hf : (resolveParts fetchT parts).find? partIsErrored = some (Part.res r)) :
    fetchFilterListLoop fetchT splitter isDiffUp rootDirOk mainlistURL (fuel + 1)
        parts subs rt =
      some { url := mainlistURL, content := "", error := r.error } := by
  simp only [fetchFilterListLoop, hf]

/-- Any result the assembler loop returns that carries an error has empty
content and echoes the main-list URL. -/
theorem fetchFilterListLoop_error_empty (fetchT : String → FetchResult)
    (splitter : String → List String) (isDiffUp : String → Bool) (rootDirOk : Bool)
    (mainlistURL : String) :
    ∀ (fuel : Nat) (parts : List Part) (subs : List String) (rt : Nat) (res : FFLResult),
      fetchFilterListLoop fetchT splitter isDiffUp rootDirOk mainlistURL fuel
          parts subs rt = some res →
      res.error ≠ none → res.content = "" ∧ res.url = mainlistURL := by
  intro fuel
  induction fuel with
  | zero =>
    intro parts subs rt res h _
    simp [fetchFilterListLoop] at h
  | succ n ih =>
    intro parts subs rt res h herr
    rw [fetchFilterListLoop] at h
    dsimp only at h
    split at h
    · rw [Option.some_inj] at h
      subst h
      exact ⟨rfl, rfl⟩
    · split at h
      · rw [Option.some_inj] at h
        subst h
        exact absurd rfl herr
      · split at h
        · exact ih _ _ _ res h herr
        · rw [Option.some_inj] at h
          subst h
          exact absurd rfl herr

/-- Claim C3: a failed main-list fetch yields `{url, content: '', error}`;
an errored settled part aborts the loop with `{url, content: '', error}`;
and no assembler result ever pairs an error with non-empty (partial)
content. -/
theorem fetchFilterList_error_atomicity (fetchT : String → FetchResult)
    (splitter : String → List String) (isDiffUp : String → Bool) (rootDirOk : Bool)
    (mainlistURL : String) :
    (∀ (e : String) (fuel : Nat), (fetchT mainlistURL).error = some e →
      fetchFilterListModel fetchT splitter isDiffUp rootDirOk mainlistURL (fuel + 1) =
        some { url := mainlistURL, content := "", error := some e }) ∧
    (∀ (fuel : Nat) (parts : List Part) (subs : List String) (rt : Nat)
        (r : FetchResult),
      (resolveParts fetchT parts).find? partIsErrored = some (Part.res r) →
      fetchFilterListLoop fetchT splitter isDiffUp rootDirOk mainlistURL (fuel + 1)
          parts subs rt =
        some { url := mainlistURL, content := "", error := r.error }) ∧
    (∀ (fuel : Nat) (res : FFLResult),
      fetchFilterListModel fetchT splitter isDiffUp rootDirOk mainlistURL fuel =
        some res →
      res.error ≠ none → res.content = "" ∧ res.url = mainlistURL) := by
  refine ⟨?_, ?_, ?_⟩
  · intro e fuel he
    have hf : (resolveParts fetchT [Part.pending mainlistURL]).find? partIsErrored
        = some (Part.res (fetchT mainlistURL)) := by
      simp [resolveParts, List.find?, partIsErrored, he]
    have h2 := fetchFilterListLoop_found_error fetchT splitter isDiffUp rootDirOk
      mainlistURL fuel [Part.pending mainlistURL] [] 0 (fetchT mainlistURL) hf
    rw [fetchFilterListModel, h2, he]
  · intro fuel parts subs rt r hf
    exact fetchFilterListLoop_found_error fetchT splitter isDiffUp rootDirOk
      mainlistURL fuel parts subs rt r hf
  · intro fuel res h herr
    rw [fetchFilterListModel] at h
    exact fetchFilterListLoop_error_empty fetchT splitter isDiffUp rootDirOk
      mainlistURL fuel _ _ _ res h herr

/-- Witness for C3: a failing main-list fetch surfaces as the synthetic
error object. -/
theorem fetchFilterList_error_atomicity_witness :
    fetchFilterListModel c3DemoFetch (fun s => [s]) (fun _ => false) true
        "https://h/a.txt" 1 =
      some { url := "https://h/a.txt", content := "", error := some "oops" } :=
  (fetchFilterList_error_atomicity c3DemoFetch (fun s => [s]) (fun _ => false) true
    "https://h/a.txt").1 "oops" 0 rfl

theorem pendingURLs_nil : pendingURLs [] = [] := rfl

theorem pendingURLs_cons_str (s : String) (ps : List Part) :
    pendingURLs (Part.str s :: ps) = pendingURLs ps := rfl

theorem pendingURLs_cons_pending (u : String) (ps : List Part) :
    pendingURLs (Part.pending u :: ps) = u :: pendingURLs ps := rfl

theorem pendingURLs_cons_res (r : FetchResult) (ps : List Part) :
    pendingURLs (Part.res r :: ps) = pendingURLs ps := rfl

theorem pendingURLs_append (l1 l2 : List Part) :
    pendingURLs (l1 ++ l2) = pendingURLs l1 ++ pendingURLs l2 := by
  simp [pendingURLs, List.filterMap_append]

/-- An accepted include directive is not yet scheduled, passes every guard,
and resolves relative to the parent URL. -/
theorem includeSubURL_some (parentURL : String) (subs : List String)
    (chunk u : String) (h : includeSubURL parentURL subs chunk = some u) :
    u ∉ subs ∧
    ∃ tok dir, parseIncludeDirective chunk = some tok ∧
      toParsedURLIsSome tok = false ∧ strContainsDotDot tok = false ∧
      dirOf parentURL = some dir ∧ u = dir ++ jsTrim tok := by
  unfold includeSubURL at h
  split at h
  · exact absurd h (by simp)
  · rename_i tok htok
    split at h
    · exact absurd h (by simp)
    · split at h
      · exact absurd h (by simp)
      · rename_i habs hdots
        split at h
        · exact absurd h (by simp)
        · rename_i dir hdir
          dsimp only at h
          split at h
          · exact absurd h (by simp)
          · rename_i hmem
            rw [Option.some_inj] at h
            subst h
            refine ⟨?_, tok, dir, htok, by simpa using habs, by simpa using hdots,
              hdir, rfl⟩
            simpa using hmem

/-- One scanned active slice: the scheduled set grows by exactly the emitted
sub-fetch URLs; each emitted URL is fresh, comes from a guard-passing
directive chunk, and resolves relative to the parent URL; and the emitted
URLs are pairwise distinct. -/
theorem scanActiveSlice_spec (parentURL : String) :
    ∀ (chunks : List String) (acc : String) (subs : List String),
      (scanActiveSlice parentURL chunks acc subs).2 =
        (pendingURLs (scanActiveSlice parentURL chunks acc subs).1).reverse ++ subs ∧
      (∀ u ∈ pendingURLs (scanActiveSlice parentURL chunks acc subs).1,
        u ∉ subs ∧
        ∃ chunk ∈ chunks, ∃ tok dir, parseIncludeDirective chunk = some tok ∧
          toParsedURLIsSome tok = false ∧ strContainsDotDot tok = false ∧
          dirOf parentURL = some dir ∧ u = dir ++ jsTrim tok) ∧
      (pendingURLs (scanActiveSlice parentURL chunks acc subs).1).Nodup := by
  intro chunks
  induction chunks with
  | nil =>
    intro acc subs
    simp [scanActiveSlice, pendingURLs]
  | cons chunk rest ih =>
    intro acc subs
    simp only [scanActiveSlice]
    cases hq : includeSubURL parentURL subs chunk with
    | none =>
      simp only [hq]
      obtain ⟨h1, h2, h3⟩ := ih (acc ++ chunk) subs
      refine ⟨h1, ?_, h3⟩
      intro u hu
      obtain ⟨hnotin, c, hc, hrest⟩ := h2 u hu
      exact ⟨hnotin, c, List.mem_cons_of_mem _ hc, hrest⟩
    | some subURL =>
      simp only [hq]
      obtain ⟨hfresh, tok, dir, htok, habs, hdots, hdir, heq⟩ :=
        includeSubURL_some parentURL subs chunk subURL hq
      obtain ⟨ih1, ih2, ih3⟩ := ih "" (subURL :: subs)
      simp only [pendingURLs_cons_str, pendingURLs_cons_pending]
      refine ⟨?_, ?_, ?_⟩
      · rw [ih1, List.reverse_cons, List.append_assoc]
        rfl
      · intro u hu
        rcases List.mem_cons.mp hu with hu | hu
        · subst hu
          exact ⟨hfresh, chunk, List.mem_cons_self _ _, tok, dir, htok, habs, hdots,
            hdir, heq⟩
        · obtain ⟨hnotin, c, hc, hrest⟩ := ih2 u hu
          exact ⟨fun hin => hnotin (List.mem_cons_of_mem _ hin), c,
            List.mem_cons_of_mem _ hc, hrest⟩
      · rw [List.nodup_cons]
        refine ⟨?_, ih3⟩
        intro hin
        exact (ih2 subURL hin).1 (List.mem_cons_self _ _)

/-- Lift of `scanActiveSlice_spec` over the splitter slices of one settled
result. -/
theorem processSlices_spec (parentURL : String) (rootDirOk : Bool) :
    ∀ (slices : List String) (odd : Bool) (subs : List String),
      (processSlices parentURL rootDirOk slices odd subs).2 =
        (pendingURLs (processSlices parentURL rootDirOk slices odd subs).1).reverse ++
          subs ∧
      (∀ u ∈ pendingURLs (processSlices parentURL rootDirOk slices odd subs).1,
        u ∉ subs ∧
        ∃ slice ∈ slices, ∃ chunk ∈ splitChunks slice, ∃ tok dir,
          parseIncludeDirective chunk = some tok ∧
          toParsedURLIsSome tok = false ∧ strContainsDotDot tok = false ∧
          dirOf parentURL = some dir ∧ u = dir ++ jsTrim tok) ∧
      (pendingURLs (processSlices parentURL rootDirOk slices odd subs).1).Nodup := by
  intro slices
  induction slices with
  | nil =>
    intro odd subs
    simp [processSlices, pendingURLs]
  | cons slice rest ih =>
    intro odd subs
    simp only [processSlices]
    have hverbatim :
        ∀ subs', (processSlices parentURL rootDirOk rest (!odd) subs').2 =
            (pendingURLs
              (Part.str slice ::
                (processSlices parentURL rootDirOk rest (!odd) subs').1)).reverse ++
              subs' ∧
          (∀ u ∈ pendingURLs
              (Part.str slice ::
                (processSlices parentURL rootDirOk rest (!odd) subs').1),
            u ∉ subs' ∧
            ∃ s ∈ slice :: rest, ∃ chunk ∈ splitChunks s, ∃ tok dir,
              parseIncludeDirective chunk = some tok ∧
              toParsedURLIsSome tok = false ∧ strContainsDotDot tok = false ∧
              dirOf parentURL = some dir ∧ u = dir ++ jsTrim tok) ∧
          (pendingURLs
            (Part.str slice ::
              (processSlices parentURL rootDirOk rest (!odd) subs').1)).Nodup := by
      intro subs'
      obtain ⟨h1, h2, h3⟩ := ih (!odd) subs'
      simp only [pendingURLs_cons_str]
      refine ⟨h1, ?_, h3⟩
      intro u hu
      obtain ⟨hnotin, s, hs, hrest⟩ := h2 u hu
      exact ⟨hnotin, s, List.mem_cons_of_mem _ hs, hrest⟩
    cases odd with
    | true =>
      simpa using hverbatim subs
    | false =>
      cases rootDirOk with
      | false =>
        simpa using hverbatim subs
      | true =>
        rw [if_neg (by decide : ¬(false = true)), if_neg (by decide : ¬(true = false))]
        simp only [Bool.not_false]
        obtain ⟨s1, s2, s3⟩ := scanActiveSlice_spec parentURL (splitChunks slice) "" subs
        obtain ⟨i1, i2, i3⟩ := ih true
          (scanActiveSlice parentURL (splitChunks slice) "" subs).2
        simp only [pendingURLs_append]
        refine ⟨?_, ?_, ?_⟩
        · rw [i1, s1, List.reverse_append]
          simp [List.append_assoc]
        · intro u hu
          rcases List.mem_append.mp hu with hu | hu
          · obtain ⟨hnotin, chunk, hchunk, hrest⟩ := s2 u hu
            exact ⟨hnotin, slice, List.mem_cons_self _ _, chunk, hchunk, hrest⟩
          · obtain ⟨hnotin, s, hs, hrest⟩ := i2 u hu
            refine ⟨?_, s, List.mem_cons_of_mem _ hs, hrest⟩
            intro hin
            exact hnotin (by rw [s1]; exact List.mem_append_right _ hin)
        · refine List.Nodup.append s3 i3 ?_
          intro a ha hin
          have := (i2 a hin).1
          rw [s1] at this
          exact this (List.mem_append_left _ (List.mem_reverse.mpr ha))

/-- Lift of the slice-level guarantees over a whole part list: the scheduled
set grows by exactly the emitted sub-fetch URLs, each emitted URL is fresh
and comes from a guard-passing directive of some settled part resolved
against that part's own URL, and the emitted URLs are pairwise distinct. -/
theorem processIncludeDirectives_spec (splitter : String → List String)
    (rootDirOk : Bool) :
    ∀ (parts : List Part) (subs : List String),
      (processIncludeDirectives splitter rootDirOk parts subs).2 =
        (pendingURLs
          (processIncludeDirectives splitter rootDirOk parts subs).1).reverse ++ subs ∧
      (∀ u ∈ pendingURLs (processIncludeDirectives splitter rootDirOk parts subs).1,
        u ∉ subs ∧
        ∃ r : FetchResult, Part.res r ∈ parts ∧
          (∃ slice ∈ splitter r.content, ∃ chunk ∈ splitChunks slice, ∃ tok dir,
            parseIncludeDirective chunk = some tok ∧
            toParsedURLIsSome tok = false ∧ strContainsDotDot tok = false ∧
            dirOf r.url = some dir ∧ u = dir ++ jsTrim tok)) ∧
      (pendingURLs (processIncludeDirectives splitter rootDirOk parts subs).1).Nodup := by
  intro parts
  induction parts with
  | nil =>
    intro subs
    simp [processIncludeDirectives, pendingURLs]
  | cons part rest ih =>
    intro subs
    cases part with
    | str s =>
      simp only [processIncludeDirectives, pendingURLs_cons_str]
      obtain ⟨h1, h2, h3⟩ := ih subs
      refine ⟨h1, ?_, h3⟩
      intro u hu
      obtain ⟨hnotin, r, hr, hrest⟩ := h2 u hu
      exact ⟨hnotin, r, List.mem_cons_of_mem _ hr, hrest⟩
    | pending v =>
      simp only [processIncludeDirectives]
      obtain ⟨h1, h2, h3⟩ := ih subs
      refine ⟨h1, ?_, h3⟩
      intro u hu
      obtain ⟨hnotin, r, hr, hrest⟩ := h2 u hu
      exact ⟨hnotin, r, List.mem_cons_of_mem _ hr, hrest⟩
    | res r =>
      simp only [processIncludeDirectives]
      obtain ⟨s1, s2, s3⟩ := processSlices_spec r.url rootDirOk (splitter r.content)
        false subs
      obtain ⟨i1, i2, i3⟩ := ih
        (processSlices r.url rootDirOk (splitter r.content) false subs).2
      simp only [pendingURLs_append]
      refine ⟨?_, ?_, ?_⟩
      · rw [i1, s1, List.reverse_append]
        simp [List.append_assoc]
      · intro u hu
        rcases List.mem_append.mp hu with hu | hu
        · obtain ⟨hnotin, slice, hslice, hrest⟩ := s2 u hu
          exact ⟨hnotin, r, List.mem_cons_self _ _, slice, hslice, hrest⟩
        · obtain ⟨hnotin, r', hr', hrest⟩ := i2 u hu
          refine ⟨?_, r', List.mem_cons_of_mem _ hr', hrest⟩
          intro hin
          exact hnotin (by rw [s1]; exact List.mem_append_right _ hin)
      · refine List.Nodup.append s3 i3 ?_
        intro a ha hin
        have := (i2 a hin).1
        rw [s1] at this
        exact this (List.mem_append_left _ (List.mem_reverse.mpr ha))

/-- Claim C7: during include processing, a directive whose path parses as an
absolute URL, or contains `..`, or whose resolved sub-URL was already
scheduled, emits no sub-fetch: every emitted sub-fetch URL arises from a
directive that passed all three guards, is resolved relative to the parent
part's own URL (`dirOf r.url ++ trimmed path`), was not previously
scheduled, and no URL is emitted twice. -/
theorem processIncludeDirectives_guards (splitter : String → List String)
    (rootDirOk : Bool) (parts : List Part) (subs : List String) :
    (∀ u ∈ pendingURLs (processIncludeDirectives splitter rootDirOk parts subs).1,
      u ∉ subs ∧
      ∃ r : FetchResult, Part.res r ∈ parts ∧
        (∃ slice ∈ splitter r.content, ∃ chunk ∈ splitChunks slice, ∃ tok dir,
          parseIncludeDirective chunk = some tok ∧
          toParsedURLIsSome tok = false ∧ strContainsDotDot tok = false ∧
          dirOf r.url = some dir ∧ u = dir ++ jsTrim tok)) ∧
    (pendingURLs (processIncludeDirectives splitter rootDirOk parts subs).1).Nodup :=
  ⟨(processIncludeDirectives_spec splitter rootDirOk parts subs).2.1,
   (processIncludeDirectives_spec splitter rootDirOk parts subs).2.2⟩

/-- Witness for C7: one settled part whose content holds a single relative
include emits exactly the parent-relative sub-fetch, fresh and unscheduled. -/
theorem processIncludeDirectives_guards_witness :
    "https://h/b.txt" ∉ ([] : List String) ∧
    ∃ r : FetchResult,
      Part.res r ∈ [Part.res { url := "https://h/a.txt", content := "!#include b.txt\n" }] ∧
      (∃ slice ∈ [r.content], ∃ chunk ∈ splitChunks slice, ∃ tok dir,
        parseIncludeDirective chunk = some tok ∧
        toParsedURLIsSome tok = false ∧ strContainsDotDot tok = false ∧
        dirOf r.url = some dir ∧ "https://h/b.txt" = dir ++ jsTrim tok) :=
  (processIncludeDirectives_guards (fun s => [s]) true
    [Part.res { url := "https://h/a.txt", content := "!#include b.txt\n" }] []).1
    "https://h/b.txt" (by decide)

theorem alist.lookup_insert_self {α : Type} (m : List (String × α)) (k : String)
    (v : α) : alist.lookup (alist.insert m k v) k = some v := by
  induction m with
  | nil => simp [alist.insert, alist.lookup]
  | cons kv rest ih =>
    by_cases h : kv.1 = k
    · simp [alist.insert, alist.lookup, h]
    · simp [alist.insert, alist.lookup, h, ih]

/-- A stale fetched result (older than the cached copy) makes `getRemote`'s
loop skip the URL without touching the state: the iteration only resets the
loop-carried `error` and records `stale`. -/
theorem getRemoteGo_stale_skip (fetchOne : String → Option RemoteFetched)
    (extractMeta : String → MetadataPatch) (assetsJsonPath : String) (now : Nat)
    (assetKey : String) (isFilters : Bool) (crt : Nat) (u : String)
    (r : RemoteFetched) (rt : Nat)
    (hext : isExternalPath u = true)
    (hfetch : fetchOne
        (if assetKey = "assets.json" then replaceAssetsJsonSuffix assetsJsonPath u
         else u) = some r)
    (hcontent : r.content ≠ "")
    (hrt : r.resourceTime = some rt) (hrt0 : 0 < rt) (hlt : rt < crt) :
    ∀ (rest : List String) (error : Option String) (stale : Bool) (st : AssetsState)
      (reg : SourceRegistry),
      getRemoteGo fetchOne extractMeta assetsJsonPath now assetKey isFilters (some crt)
          (u :: rest) error stale st reg =
        getRemoteGo fetchOne extractMeta assetsJsonPath now assetKey isFilters (some crt)
          rest none true st reg := by
  have hrtne : rt ≠ 0 := Nat.pos_iff_ne_zero.mp hrt0
  have hcrtne : crt ≠ 0 := Nat.pos_iff_ne_zero.mp (Nat.lt_trans hrt0 hlt)
  have hstale : resourceIsStale r.resourceTime (some crt) = true := by
    rw [hrt]
    simp [resourceIsStale, hrtne, hcrtne, hlt]
  intro rest error stale st reg
  simp [getRemoteGo, hext, hfetch, stringIsNotEmpty, hcontent, hstale]

/-- When every URL of the list is external and fetches a non-empty result
that is strictly older than the cached copy, `getRemote`'s loop ends with an
error-free empty result, resets the cache entry's `writeTime` to the cached
`resourceTime`, and performs no other mutation. -/
theorem getRemoteGo_all_stale (fetchOne : String → Option RemoteFetched)
    (extractMeta : String → MetadataPatch) (assetsJsonPath : String) (now : Nat)
    (assetKey : String) (isFilters : Bool) (crt : Nat) :
    ∀ (urls : List String), urls ≠ [] →
      (∀ u ∈ urls, isExternalPath u = true ∧
        ∃ r rt, fetchOne
            (if assetKey = "assets.json" then replaceAssetsJsonSuffix assetsJsonPath u
             else u) = some r ∧
          r.content ≠ "" ∧ r.resourceTime = some rt ∧ 0 < rt ∧ rt < crt) →
      ∀ (stale : Bool) (st : AssetsState) (reg : SourceRegistry),
        getRemoteGo fetchOne extractMeta assetsJsonPath now assetKey isFilters
            (some crt) urls none stale st reg =
          some ({ assetKey := assetKey, content := "", error := none },
            assetCacheSetDetailsWriteTime st assetKey (some crt),
            setLastErrorField reg assetKey none) := by
  intro urls
  induction urls with
  | nil =>
    intro h
    exact absurd rfl h
  | cons u rest ih =>
    intro _ hall stale st reg
    obtain ⟨hext, r, rt, hf, hc, hrt, h0, hlt⟩ := hall u (List.mem_cons_self _ _)
    rw [getRemoteGo_stale_skip fetchOne extractMeta assetsJsonPath now assetKey
      isFilters crt u r rt hext hf hc hrt h0 hlt rest _ stale st reg]
    cases rest with
    | nil => simp [getRemoteGo]
    | cons v rest' =>
      exact ih (by simp) (fun x hx => hall x (List.mem_cons_of_mem _ hx)) true st reg

/-- Claim C1: a fetched result whose `resourceTime` and the cached
`resourceTime` are both positive with the fetched one strictly smaller is
skipped without any write (the loop step is a pure skip), and when every URL
yields only such stale results with no fetch error, `getRemote` returns
`{content: ''}` with no error, leaves the stored content and the entry's
`resourceTime` untouched, and resets the entry's `writeTime` to the cached
`resourceTime`. -/
theorem getRemote_stale_rejection (fetchT : String → FetchResult)
    (splitter : String → List String) (isDiffUp : String → Bool)
    (rootDirOkOf : String → Bool) (fuel : Nat)
    (extractMeta : String → MetadataPatch) (assetsJsonPath : String)
    (remoteServerFriendly : Bool) (rands : List Nat) (now : Nat)
    (st : AssetsState) (reg : SourceRegistry) (assetKey : String)
    (ce : CacheEntry) (crt : Nat)
    (hce : alist.lookup st.cacheRegistry assetKey = some ce)
    (hcrt : ce.resourceTime = some crt)
    (hne : getRemoteContentURLs ((alist.lookup reg assetKey).getD {})
      remoteServerFriendly rands ≠ [])
    (hall : ∀ u ∈ getRemoteContentURLs ((alist.lookup reg assetKey).getD {})
        remoteServerFriendly rands,
      isExternalPath u = true ∧
      ∃ r rt, getRemoteFetchOne fetchT splitter isDiffUp rootDirOkOf fuel
          (((alist.lookup reg assetKey).getD {}).content = some "filters")
          (if assetKey = "assets.json" then replaceAssetsJsonSuffix assetsJsonPath u
           else u) = some r ∧
        r.content ≠ "" ∧ r.resourceTime = some rt ∧ 0 < rt ∧ rt < crt) :
    getRemoteModel fetchT splitter isDiffUp rootDirOkOf fuel extractMeta
        assetsJsonPath remoteServerFriendly rands now st reg assetKey =
      some ({ assetKey := assetKey, content := "", error := none },
        assetCacheSetDetailsWriteTime st assetKey (some crt),
        setLastErrorField reg assetKey none) ∧
    (assetCacheSetDetailsWriteTime st assetKey (some crt)).storage = st.storage ∧
    alist.lookup (assetCacheSetDetailsWriteTime st assetKey (some crt)).cacheRegistry
        assetKey = some { ce with writeTime := some crt } ∧
    (∀ (fetchOne : String → Option RemoteFetched) (isFilters : Bool) (u : String)
        (r : RemoteFetched) (rt : Nat) (rest : List String) (error : Option String)
        (stale : Bool) (st' : AssetsState) (reg' : SourceRegistry),
      isExternalPath u = true →
      fetchOne (if assetKey = "assets.json"
        then replaceAssetsJsonSuffix assetsJsonPath u else u) = some r →
      r.content ≠ "" → r.resourceTime = some rt → 0 < rt → rt < crt →
      getRemoteGo fetchOne extractMeta assetsJsonPath now assetKey isFilters
          (some crt) (u :: rest) error stale st' reg' =
        getRemoteGo fetchOne extractMeta assetsJsonPath now assetKey isFilters
          (some crt) rest none true st' reg') := by
  refine ⟨?_, ?_, ?_, ?_⟩
  · rw [getRemoteModel]
    simp only [hce, Option.some_bind, hcrt]
    exact getRemoteGo_all_stale _ extractMeta assetsJsonPath now assetKey _ crt
      _ hne hall false st reg
  · simp [assetCacheSetDetailsWriteTime, hce]
  · simp [assetCacheSetDetailsWriteTime, hce, alist.lookup_insert_self]
  · intro fetchOne isFilters u r rt rest error stale st' reg' hext hf hc hrt h0 hlt
    exact getRemoteGo_stale_skip fetchOne extractMeta assetsJsonPath now assetKey
      isFilters crt u r rt hext hf hc hrt h0 hlt rest error stale st' reg'

/-- Witness for C1 (the spec's scenario 4): the all-stale run returns
`{content: '', error: none}`, leaves the stored blob untouched and resets
`writeTime` to the cached `resourceTime`. -/
theorem getRemote_stale_rejection_witness :
    getRemoteModel staleDemoFetch (fun s => [s]) (fun _ => false) (fun _ => true) 1
        (fun _ => {}) "/assets/assets.json" false [] 777 staleDemoState staleDemoReg
        "easylist" =
      some ({ assetKey := "easylist", content := "", error := none },
        assetCacheSetDetailsWriteTime staleDemoState "easylist" (some 2000),
        setLastErrorField staleDemoReg "easylist" none) ∧
    (assetCacheSetDetailsWriteTime staleDemoState "easylist" (some 2000)).storage =
      staleDemoState.storage := by
  have h := getRemote_stale_rejection staleDemoFetch (fun s => [s]) (fun _ => false)
    (fun _ => true) 1 (fun _ => {}) "/assets/assets.json" false [] 777 staleDemoState
    staleDemoReg "easylist"
    { writeTime := some 50, readTime := some 60, resourceTime := some 2000 } 2000
    rfl rfl (by decide) ?_
  · exact ⟨h.1, h.2.1⟩
  · intro u hu
    have hurls : getRemoteContentURLs ((alist.lookup staleDemoReg "easylist").getD {})
        false [] = ["https://h/e.txt"] := rfl
    rw [hurls] at hu
    have hu' : u = "https://h/e.txt" := by simpa using hu
    subst hu'
    exact ⟨by decide, RemoteFetched.mk "NEW" none none (some 1000), 1000, rfl,
      by decide, rfl, by decide, by decide⟩

end UBOAssets
